import Mathlib

/-!
Shallow embedding of the in-browser digest script (`script.js`) of the
daily-arxiv demo page: preference normalization, persisted-slice loading,
derivation filters (favorite authors, keywords), hierarchical section
grouping, read-list operations, display-mode handling and HTML escaping.

JS strings are modelled by `String`, JS arrays by `List`, absent or falsy
string fields by `""`, absent or non-array/non-string fields by `Option`,
JS numbers (where only integral timestamps occur) by `Int`.
-/

namespace ArxivDigest

/-- Whitespace test used by `String.prototype.trim` (modelled by
`Char.isWhitespace`). -/
def isJsSpace (c : Char) : Bool := c.isWhitespace

/-- `String.prototype.trim` on the character list: drop whitespace from both
ends. -/
def trimChars (l : List Char) : List Char :=
  List.rdropWhile isJsSpace (List.dropWhile isJsSpace l)

/-- `value.trim()` for a JS string. -/
def jsTrim (s : String) : String := String.mk (trimChars s.data)

/-- `value.toLowerCase()` (per-character model, as in `Char.toLower`). -/
def jsLower (s : String) : String := String.mk (s.data.map Char.toLower)

/-- `needle` occurs at the very start of `hay`. -/
def leadsWith : List Char → List Char → Bool
  | [], _ => true
  | _ :: _, [] => false
  | n :: ns, c :: cs => n == c && leadsWith ns cs

/-- `needle` occurs contiguously somewhere in `hay`
(helper for `String.prototype.includes`). -/
def seqContains : List Char → List Char → Bool
  | [], needle => needle.isEmpty
  | c :: rest, needle => leadsWith needle (c :: rest) || seqContains rest needle

/-- JS `hay.includes(needle)` on strings. -/
def jsIncludes (hay needle : String) : Bool := seqContains hay.data needle.data

/-- One article record of the payload, with the fields the client reads.
A missing or falsy `section_type` / `primary_subject` is modelled by `""`;
a missing or non-array `keywords` field is modelled by `none`. -/
structure Article where
  arxiv_id : String
  title : String
  authors : List String
  subjects : List String
  abstract : String
  summary : String
  abs_url : String
  pdf_url : String
  section_type : String
  primary_subject : String
  keywords : Option (List String)
  deriving DecidableEq

/-- `filterByFavoriteAuthors(articles, favoriteAuthors)` from script.js:
lower-cases the favorite entries, drops the falsy (empty) ones, returns `[]`
when none remain, and otherwise keeps every article having an author whose
lower-cased name contains one of the remaining favorites as a substring. -/
def filterByFavoriteAuthors (articles : List Article) (favoriteAuthors : List String) :
    List Article :=
  let favorites := (favoriteAuthors.map jsLower).filter (fun s => s != "")
  if favorites.isEmpty then []
  else articles.filter (fun article =>
    let authorLower := article.authors.map jsLower
    favorites.any (fun fav => authorLower.any (fun author => jsIncludes author fav)))

/-- `filterByKeywords(articles, keywords)` from script.js: lower-cases the
keyword entries, drops the falsy (empty) ones, returns `[]` when none remain;
an article with a non-empty `keywords` tag array is matched by exact
membership in its lower-cased tags, otherwise by substring search over
``` `${article.title} ${article.abstract}` ``` lower-cased. -/
def filterByKeywords (articles : List Article) (keywords : List String) : List Article :=
  let needles := (keywords.map jsLower).filter (fun s => s != "")
  if needles.isEmpty then []
  else articles.filter (fun article =>
    let articleKeywords := (article.keywords.getD []).map jsLower
    if articleKeywords.length != 0 then
      needles.any (fun needle => articleKeywords.contains needle)
    else
      let fallback := jsLower (article.title ++ " " ++ article.abstract)
      needles.any (fun needle => jsIncludes fallback needle))

/-- Subject bucket produced by `buildSectionGrouping`. -/
structure SubjectGroup where
  subjectId : String
  subjectLabel : String
  items : List Article
  deriving DecidableEq

/-- Section bucket produced by `buildSectionGrouping`. -/
structure SectionGroup where
  sectionId : String
  sectionLabel : String
  count : Nat
  subjects : List SubjectGroup
  deriving DecidableEq

/-- Character class `[a-z0-9]` of `slugify`. -/
def isSlugChar (c : Char) : Bool :=
  decide (('a' ≤ c ∧ c ≤ 'z') ∨ ('0' ≤ c ∧ c ≤ '9'))

/-- Collapse consecutive hyphens to a single hyphen (together with the
per-character map below this models the global replace of `[^a-z0-9]+`
by `"-"`). -/
def squeezeHyphens : List Char → List Char
  | [] => []
  | [c] => [c]
  | c :: d :: rest =>
    if c = '-' ∧ d = '-' then squeezeHyphens (d :: rest)
    else c :: squeezeHyphens (d :: rest)

/-- `.replace(/[^a-z0-9]+/g, '-')`: every maximal run of non-slug characters
becomes one hyphen. -/
def slugCore (l : List Char) : List Char :=
  squeezeHyphens (l.map (fun c => if isSlugChar c then c else '-'))

/-- `.replace(/^-+|-+$/g, '')`: strip leading and trailing hyphens. -/
def stripEdgeHyphens (l : List Char) : List Char :=
  List.rdropWhile (fun c => c == '-') (List.dropWhile (fun c => c == '-') l)

/-- `slugify(text, fallback)` from script.js. -/
def slugify (text : String) (fallback : String) : String :=
  let slug := String.mk (stripEdgeHyphens (slugCore (jsLower (jsTrim text)).data))
  if slug = "" then fallback else slug

/-- Append `article` to the bucket of `key`, keeping first-insertion order of
keys (model of filling a JS `Map` of arrays). -/
def insertSubject : List (String × List Article) → String → Article →
    List (String × List Article)
  | [], key, article => [(key, [article])]
  | (k, v) :: rest, key, article =>
    if k = key then (k, v ++ [article]) :: rest
    else (k, v) :: insertSubject rest key article

/-- Append `article` under `sectionKey`/`subjectKey` in the nested
insertion-ordered map of `buildSectionGrouping`. -/
def insertSection : List (String × List (String × List Article)) → String → String → Article →
    List (String × List (String × List Article))
  | [], sectionKey, subjectKey, article => [(sectionKey, insertSubject [] subjectKey article)]
  | (k, m) :: rest, sectionKey, subjectKey, article =>
    if k = sectionKey then (k, insertSubject m subjectKey article) :: rest
    else (k, m) :: insertSection rest sectionKey subjectKey article

/-- `.sort(([a], [b]) => a.localeCompare(b))`, modelled as a stable merge sort
on the string keys. -/
def sortByKey {β : Type} (l : List (String × β)) : List (String × β) :=
  l.mergeSort (fun x y => decide (x.1 ≤ y.1))

/-- `buildSectionGrouping(articles)` from script.js: partition by
`section_type` (default `"Other"`), then by `primary_subject` (default
`"Other"`), sort labels, attach slug ids and per-section counts. -/
def buildSectionGrouping (articles : List Article) : List SectionGroup :=
  let sections := articles.foldl (fun m article =>
    let sectionKey := if article.section_type = "" then "Other" else article.section_type
    let subjectKey := if article.primary_subject = "" then "Other" else article.primary_subject
    insertSection m sectionKey subjectKey article) []
  (sortByKey sections).map (fun entry =>
    let sectionId := "category-" ++ slugify entry.1 ("section")
    let subjects := (sortByKey entry.2).map (fun subjectEntry =>
      ({ subjectId := sectionId ++ "-" ++ slugify subjectEntry.1 ("subject")
         subjectLabel := subjectEntry.1
         items := subjectEntry.2 } : SubjectGroup))
    let count := subjects.foldl (fun sum entry => sum + entry.items.length) 0
    { sectionId := sectionId, sectionLabel := entry.1, count := count, subjects := subjects })

/-- Value of one preference field before normalization: a JS array (elements
already coerced by `String(...)`), a delimited string, or anything else. -/
inductive PrefValue where
  | list (items : List String)
  | str (s : String)
  | other
  deriving DecidableEq

/-- Raw input of `normalizePreferences`. -/
structure RawPreferences where
  favorite_authors : PrefValue
  keywords : PrefValue
  deriving DecidableEq

/-- Normalized preferences record. -/
structure Preferences where
  favorite_authors : List String
  keywords : List String
  deriving DecidableEq

/-- Split at every character satisfying `p`, keeping empty segments
(the behavior of JS `String.prototype.split` with a single-character
class regex). -/
def splitChars (p : Char → Bool) : List Char → List (List Char)
  | [] => [[]]
  | c :: rest =>
    if p c then [] :: splitChars p rest
    else
      match splitChars p rest with
      | [] => [[c]]
      | seg :: segs => (c :: seg) :: segs

/-- `value.split(/[\n,]/)` on a JS string. -/
def jsSplitDelims (s : String) : List String :=
  (splitChars (fun c => c == '\n' || c == ',') s.data).map (fun seg => String.mk seg)

/-- Filling a JS `Set` (`seen` holds the values inserted so far). -/
def dedupSeen : List String → List String → List String
  | _, [] => []
  | seen, x :: xs =>
    if seen.contains x then dedupSeen seen xs
    else x :: dedupSeen (x :: seen) xs

/-- `Array.from(new Set(cleaned))`: deduplicate keeping first occurrences. -/
def dedupKeepFirst (l : List String) : List String := dedupSeen [] l

/-- The inner `normalizeList` of `normalizePreferences`: trim, drop empties,
deduplicate; a string is first split on newlines and commas; anything else
yields `[]`. -/
def normalizeList : PrefValue → List String
  | .list items => dedupKeepFirst ((items.map jsTrim).filter (fun s => s != ""))
  | .str s =>
    dedupKeepFirst (((jsSplitDelims s).map jsTrim).filter (fun s => s != ""))
  | .other => []

/-- `normalizePreferences(raw)` from script.js. -/
def normalizePreferences (raw : RawPreferences) : Preferences :=
  { favorite_authors := normalizeList raw.favorite_authors
    keywords := normalizeList raw.keywords }

/-- `JSON.stringify` of a normalized preferences record followed by
`JSON.parse`: both fields come back as arrays of strings. -/
def serializePreferences (p : Preferences) : RawPreferences :=
  { favorite_authors := .list p.favorite_authors, keywords := .list p.keywords }

/-- Raw read-list record (loosely typed): string fields are already coerced by
`String(...)` with falsy values giving `""`; `note` is `some` only when the
stored field is a string; `addedAt` is `some n` when `Number(...)` of the
stored field is the (non-`NaN`) number `n`. -/
structure RawReadItem where
  id : String
  title : String
  absUrl : String
  url : String
  pdfUrl : String
  authors : String
  source : String
  note : Option String
  addedAt : Option Int
  deriving DecidableEq

/-- Normalized read-list entry. -/
structure ReadItem where
  id : String
  title : String
  absUrl : String
  pdfUrl : String
  authors : String
  source : String
  note : String
  addedAt : Int
  deriving DecidableEq

/-- The per-entry body of `normalizeReadListItems`: `none` exactly when the
entry is dropped. `now` is `Date.now()`. -/
def normalizeReadItem (now : Int) (item : RawReadItem) : Option ReadItem :=
  let id := jsTrim item.id
  let title := if jsTrim item.title = "" then id else jsTrim item.title
  if id = "" ∨ title = "" then none
  else some
    { id := id
      title := title
      absUrl := jsTrim (if item.absUrl != "" then item.absUrl else item.url)
      pdfUrl := jsTrim item.pdfUrl
      authors := jsTrim item.authors
      source := jsTrim item.source
      note := item.note.getD ""
      addedAt :=
        match item.addedAt with
        | some n => if n = 0 then now else n
        | none => now }

/-- `normalizeReadListItems(value)` from script.js; `none` models a
non-array input. -/
def normalizeReadListItems (value : Option (List RawReadItem)) (now : Int) : List ReadItem :=
  match value with
  | none => []
  | some items => items.filterMap (normalizeReadItem now)

/-- View a normalized entry as the loosely-typed record it round-trips
through (`JSON.stringify`/`JSON.parse` of a `ReadItem` object; it carries no
`url` field). -/
def readItemToRaw (item : ReadItem) : RawReadItem :=
  { id := item.id
    title := item.title
    absUrl := item.absUrl
    url := ""
    pdfUrl := item.pdfUrl
    authors := item.authors
    source := item.source
    note := some item.note
    addedAt := some item.addedAt }

/-- `setReadList(nextList)`: the stored list is re-normalized before being
persisted and rendered. -/
def setReadList (nextList : List ReadItem) (now : Int) : List ReadItem :=
  normalizeReadListItems (some (nextList.map readItemToRaw)) now

/-- `addToReadList(entry)`: normalize the entry, drop any existing entry with
the same id, append; a no-op when the entry does not normalize. -/
def addToReadList (l : List ReadItem) (entry : RawReadItem) (now : Int) : List ReadItem :=
  match normalizeReadListItems (some [entry]) now with
  | [] => l
  | normalized :: _ =>
    setReadList ((l.filter (fun item => item.id != normalized.id)) ++ [normalized]) now

/-- `removeFromReadList(id)`. -/
def removeFromReadList (l : List ReadItem) (id : String) (now : Int) : List ReadItem :=
  setReadList (l.filter (fun item => item.id != id)) now

/-- `updateReadListNote(id, note)`: replace the note on the matching entry;
a no-op when the id is absent. -/
def updateReadListNote (l : List ReadItem) (id : String) (note : String) (now : Int) :
    List ReadItem :=
  if l.any (fun item => item.id == id) then
    setReadList
      (l.map (fun item => if item.id != id then item else { item with note := note })) now
  else l

/-- The read-list clear handler sets the stored list to `[]`. -/
def clearReadList : List ReadItem := []

/-- An entry as produced by normalization (all string fields trimmed, usable
id and title, timestamp non-zero): the re-normalization performed by
`setReadList` fixes exactly these entries. -/
def isNormalItem (item : ReadItem) : Bool :=
  item.id != "" && jsTrim item.id == item.id &&
  item.title != "" && jsTrim item.title == item.title &&
  jsTrim item.absUrl == item.absUrl && jsTrim item.pdfUrl == item.pdfUrl &&
  jsTrim item.authors == item.authors && jsTrim item.source == item.source &&
  item.addedAt != 0

/-- Input of `normalizeDisplayMode`: a string or anything else. -/
inductive DisplayModeInput where
  | str (s : String)
  | nonstr
  deriving DecidableEq

/-- `normalizeDisplayMode(value)` from script.js: non-strings map to
`"full"`, strings are trimmed and lower-cased and must be one of the keys of
`DISPLAY_MODE_CLASSES` (`title`, `authors`, `full`), else `"full"`. -/
def normalizeDisplayMode : DisplayModeInput → String
  | .nonstr => "full"
  | .str value =>
    let normalized := jsLower (jsTrim value)
    if normalized = "title" ∨ normalized = "authors" ∨ normalized = "full" then normalized
    else "full"

/-- A stored plain-string slice: the storage medium may throw, the key may be
absent, or a string is stored. -/
inductive StoredString where
  | unavailable
  | absent
  | value (s : String)
  deriving DecidableEq

/-- A stored JSON slice: the storage medium may throw, the key may be absent,
`JSON.parse` may throw, or a value of shape `α` was parsed. -/
inductive StoredJson (α : Type) where
  | unavailable
  | absent
  | corrupt
  | value (a : α)

/-- `loadStoredDisplayMode()`: any failure or absence yields `''`; a stored
non-empty string is normalized. -/
def loadStoredDisplayMode (store : StoredString) : String :=
  match store with
  | .unavailable => ""
  | .absent => ""
  | .value s => if s = "" then "" else normalizeDisplayMode (.str s)

/-- `state.displayMode` initialization: `loadStoredDisplayMode() || 'authors'`. -/
def displayModeInit (store : StoredString) : String :=
  if loadStoredDisplayMode store = "" then "authors" else loadStoredDisplayMode store

/-- `loadStoredSource()`: `localStorage.getItem(key) || ''` with failures
swallowed to `''`. -/
def loadStoredSource (store : StoredString) : String :=
  match store with
  | .unavailable => ""
  | .absent => ""
  | .value s => s

/-- The startup source resolution (state init plus the
`!RAW_DATA.sources[state.source]` fallback): an invalid stored key falls back
to the payload default when it names a source, else to the first source key. -/
def resolveSource (store : StoredString) (keys : List String) (dflt : String) : String :=
  let s := loadStoredSource store
  if keys.contains s then s
  else if dflt ≠ "" ∧ keys.contains dflt then dflt
  else keys.headD ""

/-- `loadStoredPreferences()`: absence or any failure falls back to
`normalizePreferences(initialPreferences)` where `initialPreferences` is the
normalized payload default. -/
def loadStoredPreferences (store : StoredJson RawPreferences) (payload : RawPreferences) :
    Preferences :=
  match store with
  | .unavailable => normalizePreferences (serializePreferences (normalizePreferences payload))
  | .absent => normalizePreferences (serializePreferences (normalizePreferences payload))
  | .corrupt => normalizePreferences (serializePreferences (normalizePreferences payload))
  | .value raw => normalizePreferences raw

/-- `loadStoredReadList()`: absence or any failure yields `[]`; the parsed
payload may be a non-array (`none`). -/
def loadStoredReadList (store : StoredJson (Option (List RawReadItem))) (now : Int) :
    List ReadItem :=
  match store with
  | .unavailable => []
  | .absent => []
  | .corrupt => []
  | .value v => normalizeReadListItems v now

/-- The expanded-state computation of `updatePaperAria` (per card):
`state.displayMode === 'full' || (paperId && state.expandedArticles.has(paperId))`. -/
def updatePaperAriaExpanded (displayMode : String) (expandedArticles : List String)
    (paperId : String) : Bool :=
  let isUserExpanded := paperId != "" && expandedArticles.contains paperId
  displayMode == "full" || isUserExpanded

/-- The expanded-state computation of `renderArticleCard`:
`state.displayMode === 'full' || state.expandedArticles.has(articleId)`. -/
def renderCardExpanded (displayMode : String) (expandedArticles : List String)
    (articleId : String) : Bool :=
  displayMode == "full" || expandedArticles.contains articleId

/-- Input of `escapeHtml`: a string, or a falsy value (`null`, `undefined`,
`0`, `false`, `NaN`) which `String(value || '')` sends to `""`. -/
inductive EscapeInput where
  | str (s : String)
  | falsy
  deriving DecidableEq

/-- `'&amp;'` as characters. -/
def ampEntity : List Char := ['&', 'a', 'm', 'p', ';']

/-- `'&lt;'` as characters. -/
def ltEntity : List Char := ['&', 'l', 't', ';']

/-- `'&gt;'` as characters. -/
def gtEntity : List Char := ['&', 'g', 't', ';']

/-- `'&quot;'` as characters. -/
def quotEntity : List Char := ['&', 'q', 'u', 'o', 't', ';']

/-- `'&#39;'` as characters. -/
def aposEntity : List Char := ['&', '#', '3', '9', ';']

/-- The double-quote character. -/
def quoteChar : Char := Char.ofNat 34

/-- The apostrophe character. -/
def aposChar : Char := Char.ofNat 39

/-- `.replace(/c/g, rep)` for a single character pattern. -/
def replaceAll (target : Char) (rep : List Char) : List Char → List Char
  | [] => []
  | c :: rest => (if c = target then rep else [c]) ++ replaceAll target rep rest

/-- The five chained replaces of `escapeHtml`, in source order. -/
def escapeData (l : List Char) : List Char :=
  replaceAll aposChar aposEntity
    (replaceAll quoteChar quotEntity
      (replaceAll '>' gtEntity
        (replaceAll '<' ltEntity
          (replaceAll '&' ampEntity l))))

/-- `escapeHtml(value)` from script.js. -/
def escapeHtml (value : EscapeInput) : String :=
  let s := match value with
    | .falsy => ""
    | .str s => s
  String.mk (escapeData s.data)

/-- The tails of the five entities `escapeHtml` emits (what must follow each
`'&'`). -/
def entityTails : List (List Char) :=
  [['a', 'm', 'p', ';'], ['l', 't', ';'], ['g', 't', ';'],
   ['q', 'u', 'o', 't', ';'], ['#', '3', '9', ';']]

/-- Every `'&'` in the list begins one of the five emitted entities. -/
def ampsOk : List Char → Bool
  | [] => true
  | c :: rest =>
    (if c = '&' then entityTails.any (fun t => leadsWith t rest) else true) && ampsOk rest

/-- A character `escapeHtml` is allowed to emit besides entity material: not a
raw `<`, `>`, double quote or apostrophe. -/
def isHtmlSafeChar (c : Char) : Bool :=
  c != '<' && c != '>' && c != quoteChar && c != aposChar

/-- Spec-side predicate of amended claim C1: some favorite entry with a
non-empty lower-cased form is a substring of some author's lower-cased
name. -/
def favoriteMatches (favoriteAuthors : List String) (article : Article) : Bool :=
  favoriteAuthors.any (fun fav =>
    jsLower fav != "" && article.authors.any (fun author =>
      jsIncludes (jsLower author) (jsLower fav)))

/-- Spec-side predicate of amended claim C2: some keyword entry with a
non-empty lower-cased form matches the article, by exact membership in its
lower-cased tag list when that list is non-empty, else by substring search
over title, a space, and abstract, lower-cased. -/
def keywordMatches (keywords : List String) (article : Article) : Bool :=
  keywords.any (fun kw =>
    jsLower kw != "" &&
      (if (article.keywords.getD []).length != 0 then
        ((article.keywords.getD []).map jsLower).contains (jsLower kw)
      else
        jsIncludes (jsLower (article.title ++ " " ++ article.abstract)) (jsLower kw)))

/-- Spec-side per-entry normalization of amended claim C6: id and title from
the trimmed fields with title falling back to the id; `absUrl` falls back to
the `url` field before defaulting to `""`; `addedAt` keeps a numeric value
unless it is `0` (falsy), in which case — like an absent or non-numeric
value — it becomes `now`; `note` keeps a string value, else `""`. -/
def specNormalizeReadItem (now : Int) (item : RawReadItem) : ReadItem :=
  { id := jsTrim item.id
    title := if jsTrim item.title = "" then jsTrim item.id else jsTrim item.title
    absUrl := jsTrim (if item.absUrl != "" then item.absUrl else item.url)
    pdfUrl := jsTrim item.pdfUrl
    authors := jsTrim item.authors
    source := jsTrim item.source
    note := item.note.getD ""
    addedAt :=
      match item.addedAt with
      | some n => if n = 0 then now else n
      | none => now }




theorem dropWhile_cons_head {α : Type} (p : α → Bool) (l res : List α) (c : α)
    (h : List.dropWhile p l = c :: res) : p c = false := by
  induction l with
  | nil => simp at h
  | cons a t ih =>
    rw [List.dropWhile_cons] at h
    by_cases hp : p a = true
    · rw [if_pos hp] at h
      exact ih h
    · rw [if_neg hp] at h
      cases h
      simpa using hp

theorem dropWhile_trimChars (l : List Char) :
    List.dropWhile isJsSpace (trimChars l) = trimChars l := by
  unfold trimChars
  obtain ⟨r, hr⟩ := List.rdropWhile_prefix isJsSpace (List.dropWhile isJsSpace l)
  cases ht : List.rdropWhile isJsSpace (List.dropWhile isJsSpace l) with
  | nil => simp
  | cons c cs =>
    rw [ht] at hr
    have h1 : List.dropWhile isJsSpace l = c :: (cs ++ r) := by
      rw [← hr]; simp
    have h2 := dropWhile_cons_head isJsSpace l (cs ++ r) c h1
    simp [List.dropWhile_cons, h2]

theorem trimChars_idem (l : List Char) : trimChars (trimChars l) = trimChars l := by
  conv_lhs => rw [trimChars, dropWhile_trimChars]
  rw [trimChars, List.rdropWhile_idempotent]

theorem jsTrim_idem (s : String) : jsTrim (jsTrim s) = jsTrim s := by
  simp [jsTrim, trimChars_idem]

theorem dedupSeen_idem (seen l : List String) :
    dedupSeen seen (dedupSeen seen l) = dedupSeen seen l := by
  induction l generalizing seen with
  | nil => rfl
  | cons x xs ih =>
    by_cases h : x ∈ seen <;> simp [dedupSeen, h, ih]

theorem mem_dedupSeen (seen l : List String) (y : String) (hy : y ∈ dedupSeen seen l) :
    y ∈ l := by
  induction l generalizing seen with
  | nil => simp [dedupSeen] at hy
  | cons x xs ih =>
    by_cases h : x ∈ seen
    · rw [dedupSeen, if_pos (by simpa using h)] at hy
      exact List.mem_cons_of_mem _ (ih _ hy)
    · rw [dedupSeen, if_neg (by simpa using h)] at hy
      rw [List.mem_cons] at hy
      rcases hy with rfl | hy
      · exact List.mem_cons_self _ _
      · exact List.mem_cons_of_mem _ (ih _ hy)

theorem normalizeList_mem (v : PrefValue) (y : String) (hy : y ∈ normalizeList v) :
    jsTrim y = y ∧ y ≠ "" := by
  have main : ∀ raw : List String,
      y ∈ dedupKeepFirst ((raw.map jsTrim).filter (fun s => s != "")) →
      jsTrim y = y ∧ y ≠ "" := by
    intro raw hmem
    have h1 := mem_dedupSeen _ _ _ hmem
    rw [List.mem_filter] at h1
    obtain ⟨h2, h3⟩ := h1
    obtain ⟨z, _, rfl⟩ := List.mem_map.mp h2
    exact ⟨jsTrim_idem z, by simpa using h3⟩
  cases v with
  | list items => exact main items hy
  | str s => exact main (jsSplitDelims s) hy
  | other => simp [normalizeList] at hy

theorem normalizeList_serialize (v : PrefValue) :
    normalizeList (.list (normalizeList v)) = normalizeList v := by
  have hmap : (normalizeList v).map jsTrim = normalizeList v := by
    rw [List.map_congr_left (fun a ha => (normalizeList_mem v a ha).1)]
    exact List.map_id _
  have hfilter : (normalizeList v).filter (fun s => s != "") = normalizeList v :=
    List.filter_eq_self.mpr fun a ha => by
      simpa using (normalizeList_mem v a ha).2
  have hdedup : dedupKeepFirst (normalizeList v) = normalizeList v := by
    cases v <;> simp [normalizeList, dedupKeepFirst, dedupSeen, dedupSeen_idem]
  calc normalizeList (.list (normalizeList v))
      = dedupKeepFirst (((normalizeList v).map jsTrim).filter (fun s => s != "")) := rfl
    _ = normalizeList v := by rw [hmap, hfilter, hdedup]

/-- C4: normalizing the serialized result of `normalizePreferences` returns
the same preferences value, for raw input of any shape. -/
theorem normalizePreferences_idempotent (x : RawPreferences) :
    normalizePreferences (serializePreferences (normalizePreferences x)) =
      normalizePreferences x := by
  simp [normalizePreferences, serializePreferences, normalizeList_serialize]


theorem any_map_lower (l : List String) (g : String → Bool) :
    (l.map jsLower).any g = l.any (fun x => g (jsLower x)) := by
  induction l with
  | nil => rfl
  | cons a t ih => simp [ih]

theorem any_filter_lower (K : List String) (p : String → Bool) :
    ((K.map jsLower).filter (fun s => s != "")).any p =
      K.any (fun k => jsLower k != "" && p (jsLower k)) := by
  induction K with
  | nil => rfl
  | cons k K ih =>
    simp only [List.map_cons, List.filter_cons, List.any_cons]
    by_cases h : jsLower k = ""
    · rw [h]
      simp [ih]
    · have hb : (jsLower k != "") = true := by simpa using h
      simp [hb, ih]

def articleAuthorX : Article :=
  { arxiv_id := "1", title := "t", authors := ["x"], subjects := [], abstract := "",
    summary := "", abs_url := "", pdf_url := "", section_type := "", primary_subject := "",
    keywords := none }

def articleTitleAb : Article :=
  { arxiv_id := "2", title := "ab", authors := [], subjects := [], abstract := "cd",
    summary := "", abs_url := "", pdf_url := "", section_type := "", primary_subject := "",
    keywords := none }

/-- C1 counterexample: with favorite list `[""]` (a non-empty list), the
article has an author whose lower-cased name contains the lower-cased form of
that entry (every string contains `""`), yet the filter returns `[]`:
empty entries are discarded before matching. -/
theorem filterByFavoriteAuthors_claim_cex :
    filterByFavoriteAuthors [articleAuthorX] [""] = [] ∧
      articleAuthorX.authors.any
        (fun author => jsIncludes (jsLower author) (jsLower "")) = true := by
  decide

/-- C1 (amended): the favorite filter returns `[]` on an empty favorite list,
returns a sublist of the input, and returns exactly the articles with an
author whose lower-cased name contains the lower-cased form of some entry of
`F` whose lower-cased form is non-empty (`favoriteMatches`). -/
theorem filterByFavoriteAuthors_spec (A : List Article) (F : List String) :
    filterByFavoriteAuthors A [] = [] ∧
    (filterByFavoriteAuthors A F).Sublist A ∧
    filterByFavoriteAuthors A F = A.filter (favoriteMatches F) := by
  have key : filterByFavoriteAuthors A F = A.filter (favoriteMatches F) := by
    show (if ((F.map jsLower).filter (fun s => s != "")).isEmpty then []
      else A.filter (fun article =>
        ((F.map jsLower).filter (fun s => s != "")).any
          (fun fav => (article.authors.map jsLower).any
            (fun author => jsIncludes author fav)))) = A.filter (favoriteMatches F)
    by_cases h : ((F.map jsLower).filter (fun s => s != "")).isEmpty = true
    · rw [if_pos h]
      symm
      rw [List.filter_eq_nil_iff]
      intro a _
      have hpt : ((F.map jsLower).filter (fun s => s != "")).any
          (fun fav => (a.authors.map jsLower).any
            (fun author => jsIncludes author fav)) = favoriteMatches F a := by
        rw [any_filter_lower]
        simp only [favoriteMatches, any_map_lower]
      rw [List.isEmpty_iff] at h
      rw [h] at hpt
      simp only [List.any_nil] at hpt
      rw [← hpt]
      simp
    · rw [if_neg h]
      apply List.filter_congr
      intro a _
      rw [any_filter_lower]
      simp only [favoriteMatches, any_map_lower]
  refine ⟨rfl, ?_, key⟩
  rw [key]
  exact List.filter_sublist A

/-- C2 counterexample: with keyword list `["bc"]`, the article carries no
keyword tags and `"bc"` is a substring of the lower-cased plain concatenation
of its title and abstract (`"ab" ++ "cd"`), yet the filter returns `[]`: the
code searches `title ++ " " ++ abstract`, in which the needle does not
occur. -/
theorem filterByKeywords_claim_cex :
    filterByKeywords [articleTitleAb] ["bc"] = [] ∧
      jsIncludes (jsLower (articleTitleAb.title ++ articleTitleAb.abstract))
        (jsLower "bc") = true := by
  decide

/-- C2 (amended): the keyword filter returns `[]` on an empty keyword list,
returns a sublist of the input, and returns exactly the articles matched by
some entry of `K` with a non-empty lower-cased form — by exact membership in
the lower-cased tag list when the article carries a non-empty tag list, else
by substring search over title, a space, and abstract, lower-cased
(`keywordMatches`). -/
theorem filterByKeywords_spec (A : List Article) (K : List String) :
    filterByKeywords A [] = [] ∧
    (filterByKeywords A K).Sublist A ∧
    filterByKeywords A K = A.filter (keywordMatches K) := by
  have point : ∀ a : Article,
      (if ((a.keywords.getD []).map jsLower).length != 0 then
        ((K.map jsLower).filter (fun s => s != "")).any
          (fun needle => ((a.keywords.getD []).map jsLower).contains needle)
      else
        ((K.map jsLower).filter (fun s => s != "")).any
          (fun needle => jsIncludes (jsLower (a.title ++ " " ++ a.abstract)) needle)) =
        keywordMatches K a := by
    intro a
    by_cases hc : (((a.keywords.getD []).map jsLower).length != 0) = true
    · have hlen : (((a.keywords.getD []).length : Nat) != 0) = true := by simpa using hc
      rw [if_pos hc, any_filter_lower]
      simp [keywordMatches, hlen]
    · have hlen : (((a.keywords.getD []).length : Nat) != 0) = false := by
        simpa using hc
      have hnil : a.keywords.getD [] = [] := by
        rw [← List.length_eq_zero]
        simpa using hlen
      rw [if_neg hc, any_filter_lower]
      simp only [keywordMatches, hnil, List.length_nil, bne_self_eq_false,
        Bool.false_eq_true, if_false]
  have key : filterByKeywords A K = A.filter (keywordMatches K) := by
    show (if ((K.map jsLower).filter (fun s => s != "")).isEmpty then []
      else A.filter (fun article =>
        if ((article.keywords.getD []).map jsLower).length != 0 then
          ((K.map jsLower).filter (fun s => s != "")).any
            (fun needle => ((article.keywords.getD []).map jsLower).contains needle)
        else
          ((K.map jsLower).filter (fun s => s != "")).any
            (fun needle =>
              jsIncludes (jsLower (article.title ++ " " ++ article.abstract)) needle))) =
      A.filter (keywordMatches K)
    by_cases h : ((K.map jsLower).filter (fun s => s != "")).isEmpty = true
    · rw [if_pos h]
      symm
      rw [List.filter_eq_nil_iff]
      intro a _
      have hpt := point a
      rw [List.isEmpty_iff] at h
      rw [h] at hpt
      simp only [List.any_nil, ite_self] at hpt
      rw [← hpt]
      simp
    · rw [if_neg h]
      exact List.filter_congr fun a _ => point a
  refine ⟨rfl, ?_, key⟩
  rw [key]
  exact List.filter_sublist A


/-- Total number of articles stored in a subject map. -/
def subjectTotal (m : List (String × List Article)) : Nat :=
  (m.map (fun e => e.2.length)).sum

/-- Total number of articles stored in a nested section map. -/
def nestedTotal (m : List (String × List (String × List Article))) : Nat :=
  (m.map (fun e => subjectTotal e.2)).sum

theorem subjectTotal_insertSubject (m : List (String × List Article)) (k : String)
    (a : Article) : subjectTotal (insertSubject m k a) = subjectTotal m + 1 := by
  induction m with
  | nil => simp [insertSubject, subjectTotal]
  | cons e rest ih =>
    obtain ⟨k', v⟩ := e
    by_cases h : k' = k
    · simp [insertSubject, h, subjectTotal]
      omega
    · simp [insertSubject, h, subjectTotal] at ih ⊢
      omega

theorem nestedTotal_insertSection (m : List (String × List (String × List Article)))
    (sk subk : String) (a : Article) :
    nestedTotal (insertSection m sk subk a) = nestedTotal m + 1 := by
  induction m with
  | nil =>
    simp only [insertSection, nestedTotal, List.map_cons, List.map_nil, List.sum_cons,
      List.sum_nil, subjectTotal_insertSubject]
    simp [subjectTotal]
  | cons e rest ih =>
    obtain ⟨k, inner⟩ := e
    by_cases h : k = sk
    · simp [insertSection, h, nestedTotal, subjectTotal_insertSubject]
      omega
    · simp [insertSection, h, nestedTotal] at ih ⊢
      omega

theorem nestedTotal_fold (articles : List Article)
    (init : List (String × List (String × List Article))) :
    nestedTotal (articles.foldl (fun m article =>
      let sectionKey := if article.section_type = "" then "Other" else article.section_type
      let subjectKey := if article.primary_subject = "" then "Other" else article.primary_subject
      insertSection m sectionKey subjectKey article) init) =
      nestedTotal init + articles.length := by
  induction articles generalizing init with
  | nil => simp
  | cons a rest ih =>
    simp only [List.foldl_cons, List.length_cons]
    rw [ih, nestedTotal_insertSection]
    omega

theorem subjectTotal_sortByKey (m : List (String × List Article)) :
    subjectTotal (sortByKey m) = subjectTotal m := by
  unfold subjectTotal sortByKey
  exact List.Perm.sum_eq (List.Perm.map _ (List.mergeSort_perm m _))

theorem foldl_count (l : List SubjectGroup) :
    l.foldl (fun sum entry => sum + entry.items.length) 0 =
      (l.map (fun g => g.items.length)).sum := by
  have general : ∀ (l : List SubjectGroup) (n : Nat),
      l.foldl (fun sum entry => sum + entry.items.length) n =
        n + (l.map (fun g => g.items.length)).sum := by
    intro l
    induction l with
    | nil => simp
    | cons g rest ih =>
      intro n
      simp only [List.foldl_cons, List.map_cons, List.sum_cons, ih]
      omega
  simpa using general l 0

/-- C3: in `buildSectionGrouping` every section's reported count is the sum of
its subject groups' sizes, and the section counts sum to the number of input
articles. -/
theorem buildSectionGrouping_counts (A : List Article) :
    ((buildSectionGrouping A).all (fun s =>
      s.count == (s.subjects.map (fun g => g.items.length)).sum)) = true ∧
    ((buildSectionGrouping A).map SectionGroup.count).sum = A.length := by
  constructor
  · rw [List.all_eq_true]
    intro s hs
    rw [beq_iff_eq]
    rw [buildSectionGrouping] at hs
    obtain ⟨entry, _, rfl⟩ := List.mem_map.mp hs
    simp only [foldl_count]
  · rw [buildSectionGrouping]
    have hcount : ∀ entry : String × List (String × List Article),
        ((fun entry =>
          let sectionId := "category-" ++ slugify entry.1 ("section")
          let subjects := (sortByKey entry.2).map (fun subjectEntry =>
            ({ subjectId := sectionId ++ "-" ++ slugify subjectEntry.1 ("subject")
               subjectLabel := subjectEntry.1
               items := subjectEntry.2 } : SubjectGroup))
          let count := subjects.foldl (fun sum entry => sum + entry.items.length) 0
          ({ sectionId := sectionId, sectionLabel := entry.1, count := count,
             subjects := subjects } : SectionGroup)) entry).count =
          subjectTotal entry.2 := by
      intro entry
      simp only [foldl_count, List.map_map]
      rw [← subjectTotal_sortByKey entry.2]
      rfl
    rw [List.map_map]
    have : ∀ m : List (String × List (String × List Article)),
        (m.map (SectionGroup.count ∘ (fun entry =>
          let sectionId := "category-" ++ slugify entry.1 ("section")
          let subjects := (sortByKey entry.2).map (fun subjectEntry =>
            ({ subjectId := sectionId ++ "-" ++ slugify subjectEntry.1 ("subject")
               subjectLabel := subjectEntry.1
               items := subjectEntry.2 } : SubjectGroup))
          let count := subjects.foldl (fun sum entry => sum + entry.items.length) 0
          ({ sectionId := sectionId, sectionLabel := entry.1, count := count,
             subjects := subjects } : SectionGroup)))).sum = nestedTotal m := by
      intro m
      unfold nestedTotal
      congr 1
      apply List.map_congr_left
      intro e _
      exact hcount e
    rw [this]
    have hperm := List.mergeSort_perm (A.foldl (fun m article =>
      let sectionKey := if article.section_type = "" then "Other" else article.section_type
      let subjectKey := if article.primary_subject = "" then "Other" else article.primary_subject
      insertSection m sectionKey subjectKey article) [])
      (fun x y => decide (x.1 ≤ y.1))
    calc nestedTotal (sortByKey _) = nestedTotal _ :=
        List.Perm.sum_eq (List.Perm.map _ hperm)
      _ = A.length := by
        rw [nestedTotal_fold]
        simp [nestedTotal]


theorem normalizeReadItem_eq (now : Int) (item : RawReadItem) :
    normalizeReadItem now item =
      if jsTrim item.id = "" then none else some (specNormalizeReadItem now item) := by
  unfold normalizeReadItem specNormalizeReadItem
  by_cases h : jsTrim item.id = ""
  · simp [h]
  · by_cases ht : jsTrim item.title = ""
    · simp [h, ht]
    · simp [h, ht]

theorem filterMap_normalizeReadItem (now : Int) (items : List RawReadItem) :
    items.filterMap (normalizeReadItem now) =
      (items.filter (fun r => jsTrim r.id != "")).map (specNormalizeReadItem now) := by
  induction items with
  | nil => rfl
  | cons r rest ih =>
    rw [List.filterMap_cons, List.filter_cons]
    by_cases h : jsTrim r.id = ""
    · simp [normalizeReadItem_eq, h, ih]
    · simp [normalizeReadItem_eq, h, ih]

def rawItemZeroAdded : RawReadItem :=
  { id := "a", title := "", absUrl := "", url := "u", pdfUrl := "", authors := "",
    source := "", note := none, addedAt := some 0 }

/-- C6 counterexample: the raw entry has numeric `addedAt = 0` and an absent
`absUrl` with `url = "u"`; the claim predicts the kept entry has its numeric
`addedAt` preserved (`0`) and `absUrl` defaulted to `""`, but the code turns
the falsy `0` into `now` (here `5`) and falls back to the `url` field. -/
theorem normalizeReadListItems_claim_cex :
    (normalizeReadListItems (some [rawItemZeroAdded]) 5).map
        (fun i => (i.absUrl, i.addedAt)) = [("u", 5)] ∧
      (("u", (5 : Int)) ≠ ("", 0)) := by
  decide

/-- C6 (amended): `normalizeReadListItems` returns `[]` on non-array input;
on an array it drops exactly the entries whose trimmed id is empty and maps
each kept entry to `specNormalizeReadItem`: trimmed fields, title falling
back to the id, `absUrl` falling back to the `url` field before `""`, and a
numeric `addedAt` preserved unless it is `0` (falsy), in which case — like an
absent or non-numeric one — it becomes the current time. -/
theorem normalizeReadListItems_spec (items : List RawReadItem) (now : Int) :
    normalizeReadListItems none now = [] ∧
    normalizeReadListItems (some items) now =
      (items.filter (fun r => jsTrim r.id != "")).map (specNormalizeReadItem now) :=
  ⟨rfl, filterMap_normalizeReadItem now items⟩


theorem jsTrim_empty : jsTrim "" = "" := rfl

theorem renorm_normal (now : Int) (i : ReadItem) (hi : isNormalItem i = true) :
    normalizeReadItem now (readItemToRaw i) = some i := by
  unfold isNormalItem at hi
  simp only [Bool.and_eq_true, bne_iff_ne, beq_iff_eq, ne_eq, and_assoc] at hi
  obtain ⟨h1, h2, h3, h4, h5, h6, h7, h8, h9⟩ := hi
  unfold normalizeReadItem readItemToRaw
  simp only [h2, h4, h5, h6, h7, h8]
  rw [if_neg (by simp [h1, h3])]
  simp only [Option.getD_some]
  rw [if_neg h3, if_neg h9]
  by_cases habs : i.absUrl = ""
  · simp only [habs, bne_self_eq_false, Bool.false_eq_true, if_false, jsTrim_empty]
    rw [← habs]
  · have hb : (i.absUrl != "") = true := by simpa using habs
    simp [hb, h5]

theorem isNormalItem_spec (now : Int) (item : RawReadItem) (hnow : now ≠ 0)
    (hid : jsTrim item.id ≠ "") : isNormalItem (specNormalizeReadItem now item) = true := by
  unfold isNormalItem specNormalizeReadItem
  simp only [Bool.and_eq_true, bne_iff_ne, beq_iff_eq, ne_eq, and_assoc]
  refine ⟨hid, jsTrim_idem _, ?_, ?_, jsTrim_idem _, jsTrim_idem _, jsTrim_idem _,
    jsTrim_idem _, ?_⟩
  · by_cases ht : jsTrim item.title = ""
    · simp [ht, hid]
    · simp [ht]
  · by_cases ht : jsTrim item.title = ""
    · simp [ht, jsTrim_idem]
    · simp [ht, jsTrim_idem]
  · cases ha : item.addedAt with
    | none => exact hnow
    | some n =>
      by_cases hz : n = 0
      · show ¬(if n = 0 then now else n) = 0
        rw [if_pos hz]
        exact hnow
      · show ¬(if n = 0 then now else n) = 0
        rw [if_neg hz]
        exact hz

theorem normal_of_normalizeReadItem (now : Int) (item : RawReadItem) (i : ReadItem)
    (hnow : now ≠ 0) (h : normalizeReadItem now item = some i) : isNormalItem i = true := by
  rw [normalizeReadItem_eq] at h
  by_cases hid : jsTrim item.id = ""
  · rw [if_pos hid] at h
    exact absurd h (by simp)
  · rw [if_neg hid] at h
    obtain rfl := (Option.some_injective _ h).symm
    exact isNormalItem_spec now item hnow hid

theorem filterMap_renorm (now : Int) :
    ∀ l : List ReadItem, (∀ i ∈ l, isNormalItem i = true) →
      (l.map readItemToRaw).filterMap (normalizeReadItem now) = l := by
  intro l
  induction l with
  | nil => intro _; rfl
  | cons i rest ih =>
    intro hl
    rw [List.map_cons, List.filterMap_cons, renorm_normal now i (hl i (List.mem_cons_self _ _))]
    rw [ih (fun j hj => hl j (List.mem_cons_of_mem _ hj))]

theorem setReadList_of_normal (l : List ReadItem) (now : Int)
    (hl : ∀ i ∈ l, isNormalItem i = true) : setReadList l now = l :=
  filterMap_renorm now l hl

theorem addToReadList_eq (l : List ReadItem) (e : RawReadItem) (now : Int) :
    addToReadList l e now =
      match normalizeReadItem now e with
      | none => l
      | some n => setReadList ((l.filter (fun i => i.id != n.id)) ++ [n]) now := by
  unfold addToReadList normalizeReadListItems
  cases h : normalizeReadItem now e with
  | none => simp [List.filterMap_cons, h]
  | some n => simp [List.filterMap_cons, h]


theorem addToReadList_of_normal (l : List ReadItem) (e : RawReadItem) (n : ReadItem)
    (now : Int) (hl : ∀ i ∈ l, isNormalItem i = true) (hnow : now ≠ 0)
    (hn : normalizeReadItem now e = some n) :
    addToReadList l e now = (l.filter (fun i => i.id != n.id)) ++ [n] := by
  rw [addToReadList_eq, hn]
  show setReadList ((l.filter (fun i => i.id != n.id)) ++ [n]) now = _
  apply setReadList_of_normal
  intro i hi
  rw [List.mem_append] at hi
  rcases hi with hi | hi
  · exact hl i (List.mem_of_mem_filter hi)
  · rw [List.mem_singleton] at hi
    subst hi
    exact normal_of_normalizeReadItem now e i hnow hn

theorem removeFromReadList_of_normal (l : List ReadItem) (id : String) (now : Int)
    (hl : ∀ i ∈ l, isNormalItem i = true) :
    removeFromReadList l id now = l.filter (fun i => i.id != id) := by
  apply setReadList_of_normal
  intro i hi
  exact hl i (List.mem_of_mem_filter hi)

theorem nodupIds_filter (l : List ReadItem) (p : ReadItem → Bool)
    (h : (l.map ReadItem.id).Nodup) : ((l.filter p).map ReadItem.id).Nodup :=
  List.Nodup.sublist (List.Sublist.map _ (List.filter_sublist l)) h

theorem nodupIds_filter_append (l : List ReadItem) (n : ReadItem)
    (h : (l.map ReadItem.id).Nodup) :
    (((l.filter (fun i => i.id != n.id)) ++ [n]).map ReadItem.id).Nodup := by
  rw [List.map_append, List.nodup_append]
  refine ⟨nodupIds_filter l _ h, List.nodup_singleton _, ?_⟩
  intro a ha
  obtain ⟨i, hi, rfl⟩ := List.mem_map.mp ha
  have := (List.mem_filter.mp hi).2
  simp only [bne_iff_ne, ne_eq] at this
  simp [this]

/-- C5: the read list keeps at most one entry per id: every operation (add,
remove, set-note, clear) preserves distinctness of the stored ids, and both
add–add and add–remove–add sequences on the same id leave exactly one entry
with that id, carrying the fields of the latest add, appended after the
surviving entries. -/
theorem readList_lastWriteWins (l : List ReadItem) (entry e e2 : RawReadItem)
    (n1 n2 : ReadItem) (id note : String) (now now1 now2 : Int)
    (hl : ∀ i ∈ l, isNormalItem i = true) (hnodup : (l.map ReadItem.id).Nodup)
    (hnow : now ≠ 0) (hnow1 : now1 ≠ 0) (hnow2 : now2 ≠ 0)
    (hn1 : normalizeReadItem now1 e = some n1)
    (hn2 : normalizeReadItem now2 e2 = some n2)
    (hid : n1.id = n2.id) :
    ((addToReadList l entry now).map ReadItem.id).Nodup ∧
    ((removeFromReadList l id now).map ReadItem.id).Nodup ∧
    ((updateReadListNote l id note now).map ReadItem.id).Nodup ∧
    ((clearReadList).map ReadItem.id).Nodup ∧
    addToReadList (addToReadList l e now1) e2 now2 =
      (l.filter (fun i => i.id != n2.id)) ++ [n2] ∧
    addToReadList (removeFromReadList (addToReadList l e now1) n1.id now1) e2 now2 =
      (l.filter (fun i => i.id != n2.id)) ++ [n2] ∧
    ((l.filter (fun i => i.id != n2.id)) ++ [n2]).filter (fun i => i.id == n2.id) = [n2] := by
  have hn1norm : isNormalItem n1 = true := normal_of_normalizeReadItem now1 e n1 hnow1 hn1
  have hn2norm : isNormalItem n2 = true := normal_of_normalizeReadItem now2 e2 n2 hnow2 hn2
  have hE1 : addToReadList l e now1 = (l.filter (fun i => i.id != n1.id)) ++ [n1] :=
    addToReadList_of_normal l e n1 now1 hl hnow1 hn1
  have hE1normal : ∀ i ∈ (l.filter (fun i => i.id != n1.id)) ++ [n1], isNormalItem i = true := by
    intro i hi
    rw [List.mem_append] at hi
    rcases hi with hi | hi
    · exact hl i (List.mem_of_mem_filter hi)
    · rw [List.mem_singleton] at hi
      subst hi
      exact hn1norm
  have hsingleton : List.filter (fun i => i.id != n2.id) [n1] = [] := by
    simp [List.filter_cons, hid]
  have hcollapse : ∀ m : List ReadItem,
      (m.filter (fun i => i.id != n1.id)).filter (fun i => i.id != n2.id) =
        m.filter (fun i => i.id != n2.id) := by
    intro m
    rw [List.filter_filter]
    apply List.filter_congr
    intro i _
    rw [hid, Bool.and_self]
  refine ⟨?_, ?_, ?_, ?_, ?_, ?_, ?_⟩
  · rw [addToReadList_eq]
    cases h : normalizeReadItem now entry with
    | none => exact hnodup
    | some n =>
      show ((setReadList ((l.filter (fun i => i.id != n.id)) ++ [n]) now).map ReadItem.id).Nodup
      rw [setReadList_of_normal _ now (by
        intro i hi
        rw [List.mem_append] at hi
        rcases hi with hi | hi
        · exact hl i (List.mem_of_mem_filter hi)
        · rw [List.mem_singleton] at hi
          subst hi
          exact normal_of_normalizeReadItem now entry i hnow h)]
      exact nodupIds_filter_append l n hnodup
  · rw [removeFromReadList_of_normal l id now hl]
    exact nodupIds_filter l _ hnodup
  · unfold updateReadListNote
    by_cases h : l.any (fun item => item.id == id) = true
    · rw [if_pos h]
      have hmapnorm : ∀ i ∈ l.map
          (fun item => if item.id != id then item else { item with note := note }),
          isNormalItem i = true := by
        intro i hi
        obtain ⟨j, hj, rfl⟩ := List.mem_map.mp hi
        by_cases hj2 : (j.id != id) = true
        · rw [if_pos hj2]
          exact hl j hj
        · rw [if_neg hj2]
          have := hl j hj
          unfold isNormalItem at this ⊢
          simpa using this
      rw [setReadList_of_normal _ now hmapnorm, List.map_map]
      have : (ReadItem.id ∘ fun item =>
          if item.id != id then item else { item with note := note }) = ReadItem.id := by
        funext j
        by_cases hj2 : (j.id != id) = true
        · simp [Function.comp, hj2]
        · simp [Function.comp, hj2]
      rw [this]
      exact hnodup
    · rw [if_neg h]
      exact hnodup
  · exact List.nodup_nil
  · rw [hE1, addToReadList_of_normal _ e2 n2 now2 hE1normal hnow2 hn2,
      List.filter_append, hsingleton, List.append_nil, hcollapse]
  · rw [hE1, removeFromReadList_of_normal _ n1.id now1 hE1normal, List.filter_append]
    have hsing1 : List.filter (fun i => i.id != n1.id) [n1] = [] := by
      simp [List.filter_cons]
    rw [hsing1, List.append_nil, List.filter_filter]
    have hff : List.filter (fun i => i.id != n1.id && i.id != n1.id) l =
        List.filter (fun i => i.id != n1.id) l := by
      apply List.filter_congr
      intro i _
      rw [Bool.and_self]
    rw [hff, addToReadList_of_normal _ e2 n2 now2
      (fun i hi => hl i (List.mem_of_mem_filter hi)) hnow2 hn2, hcollapse]
  · rw [List.filter_append, List.filter_filter]
    have h1 : List.filter (fun i => i.id == n2.id && i.id != n2.id) l = [] := by
      rw [List.filter_eq_nil_iff]
      intro i _
      by_cases hi : i.id = n2.id <;> simp [hi]
    have h2 : List.filter (fun i => i.id == n2.id) [n2] = [n2] := by
      simp [List.filter_cons]
    rw [h1, h2, List.nil_append]


def rawFirstAdd : RawReadItem :=
  { id := "p", title := "", absUrl := "", url := "", pdfUrl := "", authors := "",
    source := "", note := some "first", addedAt := none }

def rawSecondAdd : RawReadItem :=
  { id := "p", title := "", absUrl := "", url := "", pdfUrl := "", authors := "",
    source := "", note := some "second", addedAt := none }

def itemFirst : ReadItem :=
  { id := "p", title := "p", absUrl := "", pdfUrl := "", authors := "", source := "",
    note := "first", addedAt := 1 }

def itemSecond : ReadItem :=
  { id := "p", title := "p", absUrl := "", pdfUrl := "", authors := "", source := "",
    note := "second", addedAt := 2 }

/-- Witness for C5: adding id `"p"` twice with notes `"first"` then `"second"`
to the empty read list leaves exactly the single entry with note `"second"`. -/
theorem readList_lastWriteWins_witness :
    ((addToReadList [] rawFirstAdd 1).map ReadItem.id).Nodup ∧
    ((removeFromReadList [] "z" 1).map ReadItem.id).Nodup ∧
    ((updateReadListNote [] "z" "n" 1).map ReadItem.id).Nodup ∧
    ((clearReadList).map ReadItem.id).Nodup ∧
    addToReadList (addToReadList [] rawFirstAdd 1) rawSecondAdd 2 =
      (([] : List ReadItem).filter (fun i => i.id != itemSecond.id)) ++ [itemSecond] ∧
    addToReadList (removeFromReadList (addToReadList [] rawFirstAdd 1) itemFirst.id 1)
        rawSecondAdd 2 =
      (([] : List ReadItem).filter (fun i => i.id != itemSecond.id)) ++ [itemSecond] ∧
    ((([] : List ReadItem).filter (fun i => i.id != itemSecond.id)) ++ [itemSecond]).filter
        (fun i => i.id == itemSecond.id) = [itemSecond] :=
  readList_lastWriteWins [] rawFirstAdd rawFirstAdd rawSecondAdd itemFirst itemSecond
    "z" "n" 1 1 2 (by simp) (by simp) (by decide) (by decide) (by decide) (by decide)
    (by decide) (by decide)


theorem normalizeDisplayMode_str (s : String) :
    normalizeDisplayMode (.str s) =
      (if jsLower (jsTrim s) = "title" ∨ jsLower (jsTrim s) = "authors" ∨
          jsLower (jsTrim s) = "full" then jsLower (jsTrim s) else "full") := rfl

theorem normalizeDisplayMode_ne_empty (x : DisplayModeInput) :
    normalizeDisplayMode x ≠ "" := by
  cases x with
  | nonstr => simp [normalizeDisplayMode]
  | str v =>
    rw [normalizeDisplayMode_str]
    by_cases h : jsLower (jsTrim v) = "title" ∨ jsLower (jsTrim v) = "authors" ∨
        jsLower (jsTrim v) = "full"
    · rw [if_pos h]
      rcases h with h | h | h <;> simp [h]
    · rw [if_neg h]
      simp

/-- C8: `normalizeDisplayMode` is total with range `{title, authors, full}`:
a non-string input and an unrecognized string (such as `"bogus"`) map to the
fallback `"full"` without failing, and a string whose trimmed lower-cased
form is one of the three modes maps to that mode. -/
theorem normalizeDisplayMode_total (x : DisplayModeInput) (s : String) :
    (normalizeDisplayMode x = "title" ∨ normalizeDisplayMode x = "authors" ∨
      normalizeDisplayMode x = "full") ∧
    normalizeDisplayMode .nonstr = "full" ∧
    normalizeDisplayMode (.str "bogus") = "full" ∧
    normalizeDisplayMode (.str s) =
      (if jsLower (jsTrim s) = "title" ∨ jsLower (jsTrim s) = "authors" ∨
          jsLower (jsTrim s) = "full" then jsLower (jsTrim s) else "full") := by
  refine ⟨?_, rfl, by decide, normalizeDisplayMode_str s⟩
  cases x with
  | nonstr => right; right; rfl
  | str v =>
    rw [normalizeDisplayMode_str]
    by_cases h : jsLower (jsTrim v) = "title" ∨ jsLower (jsTrim v) = "authors" ∨
        jsLower (jsTrim v) = "full"
    · rw [if_pos h]
      exact h
    · rw [if_neg h]
      right; right; rfl

/-- C7 counterexample: the stored displayMode string `"bogus"` is a malformed
stored value, yet loading yields the normalized `"full"` rather than being
treated as absent (which would give `"authors"`). -/
theorem displayMode_malformed_cex :
    displayModeInit (.value "bogus") = "full" ∧
      displayModeInit (.value "bogus") ≠ "authors" := by
  decide

/-- C7 (amended): every load failure from storage unavailability or absence
(and, where parsing exists, a parse error) is swallowed: source falls back to
the payload default when it names a source else the first source key,
preferences to the normalized payload defaults, the read list to `[]`, and
displayMode to `"authors"`; a malformed (unrecognized) non-empty stored
displayMode string, however, is normalized by `normalizeDisplayMode` (to
`"full"`), not treated as absent. -/
theorem load_failures_fall_back (keys : List String) (dflt : String)
    (payload : RawPreferences) (now : Int) (s : String)
    (hk : keys ≠ []) (h0 : ¬ keys.contains "" = true) (hs : s ≠ "") :
    (resolveSource .unavailable keys dflt =
      (if dflt ≠ "" ∧ keys.contains dflt then dflt else keys.headD "")) ∧
    (resolveSource .absent keys dflt =
      (if dflt ≠ "" ∧ keys.contains dflt then dflt else keys.headD "")) ∧
    (keys.headD "" ∈ keys) ∧
    loadStoredPreferences .unavailable payload = normalizePreferences payload ∧
    loadStoredPreferences .absent payload = normalizePreferences payload ∧
    loadStoredPreferences .corrupt payload = normalizePreferences payload ∧
    loadStoredReadList .unavailable now = [] ∧
    loadStoredReadList .absent now = [] ∧
    loadStoredReadList .corrupt now = [] ∧
    displayModeInit .unavailable = "authors" ∧
    displayModeInit .absent = "authors" ∧
    displayModeInit (.value "") = "authors" ∧
    displayModeInit (.value s) = normalizeDisplayMode (.str s) := by
  have hsrc : ∀ st : StoredString, loadStoredSource st = "" →
      resolveSource st keys dflt =
        (if dflt ≠ "" ∧ keys.contains dflt then dflt else keys.headD "") := by
    intro st hst
    unfold resolveSource
    rw [hst, if_neg h0]
  have hprefs : normalizePreferences (serializePreferences (normalizePreferences payload)) =
      normalizePreferences payload := by
    simp [normalizePreferences, serializePreferences, normalizeList_serialize]
  refine ⟨hsrc _ rfl, hsrc _ rfl, ?_, hprefs, hprefs, hprefs, rfl, rfl, rfl, rfl, rfl, rfl, ?_⟩
  · cases keys with
    | nil => exact absurd rfl hk
    | cons k rest => exact List.mem_cons_self _ _
  · show (if (if s = "" then "" else normalizeDisplayMode (.str s)) = "" then "authors"
      else (if s = "" then "" else normalizeDisplayMode (.str s))) =
        normalizeDisplayMode (.str s)
    rw [if_neg hs, if_neg (normalizeDisplayMode_ne_empty _)]

/-- Witness for C7 at a concrete payload: one source key `"cs"`, no declared
default, empty payload preferences, stored displayMode `"bogus"`. -/
theorem load_failures_fall_back_witness :
    (resolveSource .unavailable ["cs"] "" =
      (if "" ≠ "" ∧ List.contains ["cs"] "" then "" else List.headD ["cs"] "")) ∧
    (resolveSource .absent ["cs"] "" =
      (if "" ≠ "" ∧ List.contains ["cs"] "" then "" else List.headD ["cs"] "")) ∧
    (List.headD ["cs"] "" ∈ ["cs"]) ∧
    loadStoredPreferences .unavailable ⟨.other, .other⟩ =
      normalizePreferences ⟨.other, .other⟩ ∧
    loadStoredPreferences .absent ⟨.other, .other⟩ =
      normalizePreferences ⟨.other, .other⟩ ∧
    loadStoredPreferences .corrupt ⟨.other, .other⟩ =
      normalizePreferences ⟨.other, .other⟩ ∧
    loadStoredReadList .unavailable 1 = [] ∧
    loadStoredReadList .absent 1 = [] ∧
    loadStoredReadList .corrupt 1 = [] ∧
    displayModeInit .unavailable = "authors" ∧
    displayModeInit .absent = "authors" ∧
    displayModeInit (.value "") = "authors" ∧
    displayModeInit (.value "bogus") = normalizeDisplayMode (.str "bogus") :=
  load_failures_fall_back ["cs"] "" ⟨.other, .other⟩ 1 "bogus"
    (by decide) (by decide) (by decide)

/-- C9: an article's computed expanded state is `true` iff displayMode is
`"full"` or its id is in the expansion set: `renderArticleCard` computes
exactly this, and `updatePaperAria` computes it for every non-empty paper id
(its extra guard only affects an empty id). -/
theorem expandedState_iff (m : String) (E : List String) (id : String) (hid : id ≠ "") :
    (renderCardExpanded m E id = true ↔ (m = "full" ∨ id ∈ E)) ∧
    (updatePaperAriaExpanded m E id = true ↔ (m = "full" ∨ id ∈ E)) := by
  have hb : (id != "") = true := by simpa using hid
  constructor
  · unfold renderCardExpanded
    simp
  · unfold updatePaperAriaExpanded
    simp [hb]

/-- Witness for C9: in mode `"authors"` with expansion set `["a"]`, article
`"a"` is expanded by both computations. -/
theorem expandedState_iff_witness :
    (renderCardExpanded "authors" ["a"] "a" = true ↔
      ("authors" = "full" ∨ "a" ∈ ["a"])) ∧
    (updatePaperAriaExpanded "authors" ["a"] "a" = true ↔
      ("authors" = "full" ∨ "a" ∈ ["a"])) :=
  expandedState_iff "authors" ["a"] "a" (by decide)


theorem replaceAll_append (t : Char) (rep xs ys : List Char) :
    replaceAll t rep (xs ++ ys) = replaceAll t rep xs ++ replaceAll t rep ys := by
  induction xs with
  | nil => rfl
  | cons c cs ih => simp [replaceAll, ih]

theorem escapeData_append (xs ys : List Char) :
    escapeData (xs ++ ys) = escapeData xs ++ escapeData ys := by
  unfold escapeData
  simp [replaceAll_append]

theorem escapeData_cons (c : Char) (l : List Char) :
    escapeData (c :: l) = escapeData [c] ++ escapeData l :=
  escapeData_append [c] l

theorem escapeData_single (c : Char) :
    escapeData [c] =
      if c = '&' then ampEntity
      else if c = '<' then ltEntity
      else if c = '>' then gtEntity
      else if c = quoteChar then quotEntity
      else if c = aposChar then aposEntity
      else [c] := by
  by_cases h1 : c = '&'
  · subst h1; decide
  by_cases h2 : c = '<'
  · subst h2; decide
  by_cases h3 : c = '>'
  · subst h3; decide
  by_cases h4 : c = quoteChar
  · subst h4; decide
  by_cases h5 : c = aposChar
  · subst h5; decide
  simp only [if_neg h1, if_neg h2, if_neg h3, if_neg h4, if_neg h5]
  simp [escapeData, replaceAll, h1, h2, h3, h4, h5]

theorem escapeData_single_safe (c : Char) :
    (escapeData [c]).all isHtmlSafeChar = true := by
  rw [escapeData_single]
  split_ifs with h1 h2 h3 h4 h5
  · decide
  · decide
  · decide
  · decide
  · decide
  · simp [isHtmlSafeChar, h2, h3, h4, h5]

theorem escapeData_all_safe (l : List Char) :
    (escapeData l).all isHtmlSafeChar = true := by
  induction l with
  | nil => rfl
  | cons c rest ih =>
    rw [escapeData_cons, List.all_append]
    simp [escapeData_single_safe c, ih]

theorem leadsWith_self_append (xs ys : List Char) : leadsWith xs (xs ++ ys) = true := by
  induction xs with
  | nil => rfl
  | cons c cs ih => simp [leadsWith, ih]

theorem ampsOk_append_no_amp (xs rest : List Char)
    (hx : xs.all (fun c => c != '&') = true) :
    ampsOk (xs ++ rest) = ampsOk rest := by
  induction xs with
  | nil => rfl
  | cons c cs ih =>
    rw [List.all_cons, Bool.and_eq_true] at hx
    have hc : ¬ c = '&' := by simpa using hx.1
    rw [List.cons_append]
    show ((if c = '&' then entityTails.any (fun t => leadsWith t (cs ++ rest)) else true) &&
      ampsOk (cs ++ rest)) = ampsOk rest
    rw [if_neg hc, Bool.true_and, ih hx.2]

theorem ampsOk_entity (tail rest : List Char) (htail : tail ∈ entityTails)
    (hta : tail.all (fun c => c != '&') = true) :
    ampsOk (('&' :: tail) ++ rest) = ampsOk rest := by
  rw [List.cons_append]
  show ((if ('&' : Char) = '&' then
      entityTails.any (fun t => leadsWith t (tail ++ rest)) else true) &&
    ampsOk (tail ++ rest)) = ampsOk rest
  rw [if_pos rfl]
  have hany : entityTails.any (fun t => leadsWith t (tail ++ rest)) = true :=
    List.any_eq_true.mpr ⟨tail, htail, leadsWith_self_append tail rest⟩
  rw [hany, Bool.true_and, ampsOk_append_no_amp tail rest hta]

theorem escapeData_ampsOk (l : List Char) : ampsOk (escapeData l) = true := by
  induction l with
  | nil => rfl
  | cons c rest ih =>
    rw [escapeData_cons, escapeData_single]
    split_ifs with h1 h2 h3 h4 h5
    · show ampsOk (('&' :: ['a', 'm', 'p', ';']) ++ escapeData rest) = true
      rw [ampsOk_entity _ _ (by decide) (by decide), ih]
    · show ampsOk (('&' :: ['l', 't', ';']) ++ escapeData rest) = true
      rw [ampsOk_entity _ _ (by decide) (by decide), ih]
    · show ampsOk (('&' :: ['g', 't', ';']) ++ escapeData rest) = true
      rw [ampsOk_entity _ _ (by decide) (by decide), ih]
    · show ampsOk (('&' :: ['q', 'u', 'o', 't', ';']) ++ escapeData rest) = true
      rw [ampsOk_entity _ _ (by decide) (by decide), ih]
    · show ampsOk (('&' :: ['#', '3', '9', ';']) ++ escapeData rest) = true
      rw [ampsOk_entity _ _ (by decide) (by decide), ih]
    · rw [List.singleton_append]
      show ((if c = '&' then entityTails.any (fun t => leadsWith t (escapeData rest))
        else true) && ampsOk (escapeData rest)) = true
      rw [if_neg h1, Bool.true_and, ih]

/-- C10: `escapeHtml` never emits a raw `<`, `>`, `"` or `'`; every `&` in
its output begins one of the five entities it emits; and any falsy input
yields the empty string. -/
theorem escapeHtml_safe (v : EscapeInput) :
    ((escapeHtml v).data.all isHtmlSafeChar = true) ∧
    (ampsOk (escapeHtml v).data = true) ∧
    escapeHtml .falsy = "" := by
  refine ⟨?_, ?_, rfl⟩ <;>
    cases v <;> simp [escapeHtml, escapeData_all_safe, escapeData_ampsOk]

end ArxivDigest
